import Mathlib

/-!
Verification development for the shark repository fragment: the CSV import
label-conformity check (src/src/Data/Csv.cpp), the elementwise neuron
functions (src/include/shark/Models/Neurons.h), and the CMA-ES driver used by
the validation test (src/Test/EALib/SchwefelEllipsoidCMA.cpp).  The CMA-ES
core itself (EALib/CMA.h) is not part of the sources; where a property
depends on it, the corresponding definitions are modelled from the
specification and are marked so in their doc comments.
-/

namespace Shark

/-! ### CSV label-conformity check (src/src/Data/Csv.cpp, lines 300-319) -/

/-- Error raised by the label scan; stands for the two
`SHARKEXCEPTION("negative labels are only allowed for classes -1/1")` throws
in `csvStringToData` for `LabeledData<RealVector, unsigned int>`. -/
inductive CsvError where
  | badLabels
deriving DecidableEq

/-- Accumulator of the label-conformity loop: `binaryLabels`,
`minPositiveLabel` and `maxPositiveLabel` of Csv.cpp lines 301-305. -/
structure LabelScan where
  binaryLabels : Bool
  minPositiveLabel : Int
  maxPositiveLabel : Int
deriving DecidableEq

/-- Initial value of `std::numeric_limits<int>::max()` for a 32-bit `int`. -/
def intMax : Int := 2 ^ 31 - 1

/-- Initial accumulator: `binaryLabels = false`,
`minPositiveLabel = std::numeric_limits<int>::max()`, `maxPositiveLabel = -1`
(Csv.cpp lines 301-305). -/
def labelScanInit : LabelScan := ⟨false, intMax, -1⟩

/-- One iteration of the for-loop at Csv.cpp lines 306-316, including its
`else if` chain exactly as written. -/
def scanStep (acc : LabelScan) (label : Int) : Except CsvError LabelScan :=
  if label < -1 then .error .badLabels
  else if label = -1 then .ok { acc with binaryLabels := true }
  else if label < acc.minPositiveLabel then .ok { acc with minPositiveLabel := label }
  else if label > acc.maxPositiveLabel then .ok { acc with maxPositiveLabel := label }
  else .ok acc

/-- The whole label-conformity check of Csv.cpp lines 300-319: fold the scan
over the parsed labels, then throw when
`binaryLabels && (minPositiveLabel == 0 || maxPositiveLabel > 1)`. -/
def checkLabels (labels : List Int) : Except CsvError LabelScan :=
  match labels.foldlM scanStep labelScanInit with
  | .error e => .error e
  | .ok s =>
    if s.binaryLabels ∧ (s.minPositiveLabel = 0 ∨ s.maxPositiveLabel > 1) then
      .error .badLabels
    else .ok s

/-- The label stored in the dataset at Csv.cpp line 340:
`binaryLabels ? 1 + (rawLabel-1)/2 : rawLabel - minPositiveLabel`, with C++
truncating integer division. -/
def mappedLabel (s : LabelScan) (rawLabel : Int) : Int :=
  if s.binaryLabels then 1 + (rawLabel - 1).tdiv 2 else rawLabel - s.minPositiveLabel

/-- C8: the label-conformity check of `csvStringToData` accepts the mixed
label multiset {-1, 5} in both row orders, because the `else if` chain never
lets a label that lowers `minPositiveLabel` also raise `maxPositiveLabel`;
the dataset is then built with label 5 mapped to class 3 and label -1 to
class 0, contradicting the intended rejection of -1 mixed with labels other
than 1. -/
theorem checkLabels_accepts_mixed_binary_multiclass :
    checkLabels [-1, 5] = .ok ⟨true, 5, -1⟩ ∧
    checkLabels [5, -1] = .ok ⟨true, 5, -1⟩ ∧
    mappedLabel ⟨true, 5, -1⟩ 5 = 3 ∧
    mappedLabel ⟨true, 5, -1⟩ (-1) = 0 :=
  ⟨rfl, rfl, rfl, rfl⟩

/-! ### Neuron activation functions (src/include/shark/Models/Neurons.h) -/

/-- `FastSigmoidNeuron::function` from Neurons.h lines 168-172:
`x / (1 + std::abs(x))`, with the `double` instantiation embedded as a real
function. -/
noncomputable def FastSigmoidNeuron.function (x : ℝ) : ℝ := x / (1 + |x|)

/-- C9: for every real `x`, `FastSigmoidNeuron::function(x) = x/(1+|x|)` lies
strictly between -1 and 1, and it is zero exactly when `x = 0`. -/
theorem fastSigmoid_mem_Ioo_and_zero_iff (x : ℝ) :
    (-1 < FastSigmoidNeuron.function x ∧ FastSigmoidNeuron.function x < 1) ∧
    (FastSigmoidNeuron.function x = 0 ↔ x = 0) := by
  have hpos : (0 : ℝ) < 1 + |x| := by positivity
  refine ⟨⟨?_, ?_⟩, ?_⟩
  · rw [FastSigmoidNeuron.function, lt_div_iff hpos]
    nlinarith [neg_abs_le x, abs_nonneg x]
  · rw [FastSigmoidNeuron.function, div_lt_one hpos]
    nlinarith [le_abs_self x]
  · rw [FastSigmoidNeuron.function, div_eq_zero_iff]
    exact ⟨fun h => h.resolve_right hpos.ne', Or.inl⟩

/-- C9 witness: the bounds and the zero characterization instantiated at
`x = 1`. -/
theorem fastSigmoid_mem_Ioo_and_zero_iff_witness :
    (-1 < FastSigmoidNeuron.function 1 ∧ FastSigmoidNeuron.function 1 < 1) ∧
    (FastSigmoidNeuron.function 1 = 0 ↔ (1 : ℝ) = 0) :=
  fastSigmoid_mem_Ioo_and_zero_iff 1

/-- `DropoutNeuron<Neuron>::function` from Neurons.h lines 186-196: the
wrapped neuron is the parameter `f`, and the outcome of the process-wide
`Rng::coinToss()` draw is made an explicit parameter `toss`. -/
noncomputable def DropoutNeuron.function (f : ℝ → ℝ) (toss : Bool) (x : ℝ) : ℝ :=
  if toss then 0 else f x

/-- C10: for every input `x` and every coin-toss outcome,
`DropoutNeuron<Neuron>::function(x)` is either 0 (toss succeeded) or
`Neuron::function(x)` (toss failed); and the value is not determined by `x`
alone, since at `x = 1` the two toss outcomes give different values for the
wrapped `FastSigmoidNeuron`. -/
theorem dropout_function_zero_or_wrapped :
    (∀ (f : ℝ → ℝ) (x : ℝ),
      DropoutNeuron.function f true x = 0 ∧ DropoutNeuron.function f false x = f x) ∧
    (∀ (f : ℝ → ℝ) (toss : Bool) (x : ℝ),
      DropoutNeuron.function f toss x = 0 ∨ DropoutNeuron.function f toss x = f x) ∧
    (∃ (t₁ t₂ : Bool) (x : ℝ),
      DropoutNeuron.function FastSigmoidNeuron.function t₁ x ≠
        DropoutNeuron.function FastSigmoidNeuron.function t₂ x) := by
  refine ⟨fun f x => ⟨rfl, rfl⟩, fun f toss x => ?_, ⟨true, false, 1, ?_⟩⟩
  · cases toss
    · exact Or.inr rfl
    · exact Or.inl rfl
  · show (0 : ℝ) ≠ FastSigmoidNeuron.function 1
    rw [FastSigmoidNeuron.function]
    norm_num

/-! ### Driver loop of src/Test/EALib/SchwefelEllipsoidCMA.cpp, lines 36-41 -/

/-- The loop threshold literal `10E-10` at SchwefelEllipsoidCMA.cpp line 41,
read exactly: 10 * 10 ^ (-10) = 10 ^ (-9). -/
def loopThreshold : ℚ := 10 / 10 ^ 10

/-- Best fitness when the do-while of lines 38-41 exits, for a given
trajectory `traj k = bestSolutionFitness()` observed after the `(k+1)`-st
`run()` call: the loop repeats while the fitness is strictly above the
threshold, so it stops at the first index meeting it.  The trajectory itself
is produced by the CMA core (EALib/CMA.h), which is not under src/; the
hypothesis that it eventually meets the threshold models the spec's
convergence scenario (section 8). -/
def exitFitness (traj : ℕ → ℚ) (h : ∃ k, traj k ≤ loopThreshold) : ℚ :=
  traj (Nat.find h)

/-- The loop counter `i` at lines 37-42: one `run()` call per iteration,
exiting after the first iteration whose fitness meets the threshold. -/
def runCalls (traj : ℕ → ℚ) (h : ∃ k, traj k ≤ loopThreshold) : ℕ :=
  Nat.find h + 1

/-- Modelled from the spec: a best-fitness trajectory consistent with the
spec's monotone convergence (sections 3 and 8) — fitness 1 after the first
generation and 5 * 10 ^ (-10) from the second generation on. -/
def cexTraj (k : ℕ) : ℚ := if k = 0 then 1 else 5 / 10 ^ 10

/-- C1 counterexample: on the trajectory `cexTraj` the driver loop exits
after the second `run()` call with best fitness 5 * 10 ^ (-10), which is at
most the literal `10E-10` = 10 ^ (-9) but NOT strictly below 10 ^ (-10) as
the claim states. -/
theorem driver_exit_fitness_not_below_ten_pow_minus_ten :
    exitFitness cexTraj ⟨1, by norm_num [cexTraj, loopThreshold]⟩ = 5 / 10 ^ 10 ∧
    runCalls cexTraj ⟨1, by norm_num [cexTraj, loopThreshold]⟩ = 2 ∧
    ¬ exitFitness cexTraj ⟨1, by norm_num [cexTraj, loopThreshold]⟩ < 1 / 10 ^ 10 := by
  have hfind : Nat.find (⟨1, by norm_num [cexTraj, loopThreshold]⟩ :
      ∃ k, cexTraj k ≤ loopThreshold) = 1 := by
    rw [Nat.find_eq_iff]
    refine ⟨by norm_num [cexTraj, loopThreshold], ?_⟩
    intro m hm
    interval_cases m
    norm_num [cexTraj, loopThreshold]
  refine ⟨?_, ?_, ?_⟩
  · rw [exitFitness, hfind]; norm_num [cexTraj]
  · rw [runCalls, hfind]
  · rw [exitFitness, hfind]; norm_num [cexTraj]

/-- C1 amended: whenever a trial's best-fitness trajectory eventually meets
the loop threshold, the do-while terminates at the first such generation;
the exit fitness is at most `10E-10` = 10 ^ (-9) (not strictly below
10 ^ (-10)), and every earlier generation had fitness strictly above the
threshold. -/
theorem driver_exit_fitness_le_threshold (traj : ℕ → ℚ)
    (h : ∃ k, traj k ≤ loopThreshold) :
    exitFitness traj h ≤ loopThreshold ∧
    loopThreshold = 1 / 10 ^ 9 ∧
    ∀ j < Nat.find h, loopThreshold < traj j := by
  refine ⟨Nat.find_spec h, by norm_num [loopThreshold], ?_⟩
  intro j hj
  exact lt_of_not_le (Nat.find_min h hj)

/-- C1 amended witness: the loop-exit bound instantiated on the constant-zero
trajectory. -/
theorem driver_exit_fitness_le_threshold_witness :
    exitFitness (fun _ => 0) ⟨0, by norm_num [loopThreshold]⟩ ≤ loopThreshold :=
  (driver_exit_fitness_le_threshold (fun _ => 0) ⟨0, by norm_num [loopThreshold]⟩).1

/-! ### The starting-point protocol (SchwefelEllipsoidCMA.cpp, lines 29-31) -/

/-- Modelled from the spec: `SchwefelEllipsoidRotated::ProposeStartingPoint`
lives in EALib/ObjectiveFunctions.h, which is not under src/.  As invoked in
the test at lines 29-31, it takes the caller-supplied output buffer (a
pointer into `start`) as an argument and writes `dimension()` drawn values
through it, leaving memory beyond the written prefix untouched; the drawn
values are abstracted as the parameter `draw`. -/
def ProposeStartingPoint (draw : ℕ → ℚ) (n : ℕ) (buffer : List ℚ) : List ℚ :=
  (List.range n).map draw ++ buffer.drop n

/-- Modelled from the spec: the operation exactly as the spec words it — an
argument-free `proposeStartingPoint() -> vector of length == dimension()`,
for comparison with the source-side buffer-filling form. -/
def proposeStartingPointSpec (draw : ℕ → ℚ) (n : ℕ) : List ℚ :=
  (List.range n).map draw

/-- C7 counterexample: `ProposeStartingPoint` does take an argument — its
result depends on the buffer it is handed (two buffers of different lengths
give different results), so the operation is not the argument-free function
the claim describes. -/
theorem proposeStartingPoint_depends_on_buffer :
    ProposeStartingPoint (fun _ => 0) 2 [0, 0] ≠
      ProposeStartingPoint (fun _ => 0) 2 [0, 0, 0] := by
  decide

/-- C7 amended: `ProposeStartingPoint` takes the caller-allocated output
buffer as its argument and fills its first `dimension()` entries; invoked on
a fresh zero buffer of length `dimension()` exactly as the test does at
lines 29-31, it produces the vector of length `dimension()` that the spec's
argument-free form returns. -/
theorem proposeStartingPoint_fills_dimension_vector (draw : ℕ → ℚ) (n : ℕ) :
    (ProposeStartingPoint draw n (List.replicate n 0)).length = n ∧
    ProposeStartingPoint draw n (List.replicate n 0) =
      proposeStartingPointSpec draw n := by
  have hdrop : (List.replicate n (0 : ℚ)).drop n = [] := by
    rw [List.drop_replicate]
    simp
  rw [ProposeStartingPoint, proposeStartingPointSpec, hdrop]
  simp

/-! ### CMA-ES core, modelled from the spec (EALib/CMA.h is not under src/) -/

/-- Modelled from the spec: the floating-point transcendentals, the natural
logarithm used by the population-size heuristic, and the symmetric
eigendecomposition (spec sections 2, 4.2 and 4.4) have no exact rational
embedding, so they are abstracted as parameters of the model; `eigA` returns
the eigenvector matrix and the eigenvalues of a symmetric matrix. -/
structure Analytic where
  expA : ℚ → ℚ
  sqrtA : ℚ → ℚ
  lnA : ℚ → ℚ
  eigA : List (List ℚ) → List (List ℚ) × List ℚ

/-- Modelled from the spec: the Objective collaborator of section 6 —
`dimension()` and a total `evaluate`. -/
structure Objective where
  dim : ℕ
  eval : List ℚ → ℚ

/-- Elementwise vector sum. -/
def vadd (v w : List ℚ) : List ℚ := List.zipWith (· + ·) v w

/-- Scalar times vector. -/
def vsmul (a : ℚ) (v : List ℚ) : List ℚ := v.map (a * ·)

/-- Dot product. -/
def vdot (v w : List ℚ) : ℚ := (List.zipWith (· * ·) v w).sum

/-- The zero vector of length `n`. -/
def zeroVec (n : ℕ) : List ℚ := List.replicate n 0

/-- Matrix-vector product, rows as lists. -/
def matVec (M : List (List ℚ)) (v : List ℚ) : List ℚ := M.map (fun r => vdot r v)

/-- Elementwise matrix sum. -/
def madd (M N : List (List ℚ)) : List (List ℚ) := List.zipWith vadd M N

/-- Scalar times matrix. -/
def msmul (a : ℚ) (M : List (List ℚ)) : List (List ℚ) := M.map (vsmul a)

/-- Outer product of two vectors. -/
def outer (v w : List ℚ) : List (List ℚ) := v.map (fun a => vsmul a w)

/-- The n-by-n identity matrix. -/
def identityMat (n : ℕ) : List (List ℚ) :=
  (List.range n).map (fun i => (List.range n).map (fun j => if i = j then 1 else 0))

/-- Matrix entry with zero padding. -/
def entry (M : List (List ℚ)) (i j : ℕ) : ℚ := (M.getD i []).getD j 0

/-- Transpose of an n-by-n matrix. -/
def transposeMat (n : ℕ) (M : List (List ℚ)) : List (List ℚ) :=
  (List.range n).map (fun i => (List.range n).map (fun j => entry M j i))

/-- The n-by-n zero matrix. -/
def zeroMat (n : ℕ) : List (List ℚ) := List.replicate n (zeroVec n)

/-- Modelled from the spec: RandomSource (section 2) is a reseedable
deterministic stream; a 31-bit linear congruential step stands in for the
generator. -/
def rngNext (s : ℕ) : ℕ := (1103515245 * s + 12345) % 2 ^ 31

/-- Modelled from the spec: one scalar draw — the state mapped into
[-1/2, 1/2) stands in for a standard-normal deviate — together with the
advanced generator state. -/
def rngDraw (s : ℕ) : ℚ × ℕ := (((s % 2 ^ 31 : ℕ) : ℚ) / 2 ^ 31 - 1 / 2, rngNext s)

/-- A vector of `n` consecutive draws, threading the generator state. -/
def drawVec : ℕ → ℕ → List ℚ × ℕ
  | 0, s => ([], s)
  | n + 1, s =>
    let p := rngDraw s
    let q := drawVec n p.2
    (p.1 :: q.1, q.2)

/-- Modelled from the spec: StrategyParameters of section 3, derived once
from the dimension at `init` and immutable thereafter. -/
structure StrategyParams where
  lam : ℕ
  mu : ℕ
  weights : List ℚ
  muEff : ℚ
  cc : ℚ
  cs : ℚ
  c1 : ℚ
  cmu : ℚ
  dsigma : ℚ
  chiN : ℚ

/-- Modelled from the spec: the standard log-weighting scheme over the top μ
ranks (section 3), before normalization. -/
def rawWeights (A : Analytic) (mu : ℕ) : List ℚ :=
  (List.range mu).map (fun i => A.lnA ((mu : ℚ) + 1 / 2) - A.lnA ((i : ℚ) + 1))

/-- Modelled from the spec: derivation of StrategyParameters from the
dimension (sections 3 and 4.1): `λ = 4 + floor(3 ln n)`, `μ = λ/2`,
normalized log weights, and the customary CMA-ES learning rates, damping and
`chiN` (the spec names the constants but leaves their formulas open). -/
def deriveParams (A : Analytic) (n : ℕ) : StrategyParams :=
  let lam := 4 + (3 * A.lnA (n : ℚ)).floor.toNat
  let mu := lam / 2
  let raw := rawWeights A mu
  let tot := raw.sum
  let w := raw.map (fun r => r / tot)
  let muEff := 1 / (w.map (fun r => r * r)).sum
  let nQ : ℚ := n
  let cc := 4 / (nQ + 4)
  let cs := (muEff + 2) / (nQ + muEff + 3)
  let c1 := 2 / ((nQ + 13 / 10) ^ 2 + muEff)
  let cmu := min (1 - c1) (2 * (muEff - 2 + 1 / muEff) / ((nQ + 2) ^ 2 + muEff))
  let dsigma := 1 + 2 * max 0 (A.sqrtA ((muEff - 1) / (nQ + 1)) - 1) + cs
  let chiN := A.sqrtA nQ * (1 - 1 / (4 * nQ) + 1 / (21 * nQ ^ 2))
  ⟨lam, mu, w, muEff, cc, cs, c1, cmu, dsigma, chiN⟩

/-- Modelled from the spec: SearchState and BestSolution of section 3;
`rng` is the RandomSource state, `best` the best individual ever observed,
`lastPop` the candidate vectors sampled by the most recent `run()` in
sampling order. -/
structure CMAState where
  n : ℕ
  params : StrategyParams
  mean : List ℚ
  sigma : ℚ
  covC : List (List ℚ)
  eigB : List (List ℚ)
  eigD : List ℚ
  pathC : List ℚ
  pathSigma : List ℚ
  generationCount : ℕ
  lastEigenUpdate : ℕ
  rng : ℕ
  best : Option (List ℚ × ℚ)
  lastPop : List (List ℚ)

/-- Error taxonomy of spec section 7 relevant to `init`/`run`. -/
inductive CMAError where
  | invalidArgument
  | notInitialized
deriving DecidableEq

/-- Modelled from the spec: the state built by a successful
`CMASearch::init` (section 4.1): `mean = startPoint`, `sigma = initialSigma`,
`C = I`, `B = I`, `D = 1`, paths zero, `generationCount = 0`. -/
def initState (A : Analytic) (obj : Objective) (startPoint : List ℚ)
    (initialSigma : ℚ) (seed : ℕ) : CMAState where
  n := obj.dim
  params := deriveParams A obj.dim
  mean := startPoint
  sigma := initialSigma
  covC := identityMat obj.dim
  eigB := identityMat obj.dim
  eigD := List.replicate obj.dim 1
  pathC := zeroVec obj.dim
  pathSigma := zeroVec obj.dim
  generationCount := 0
  lastEigenUpdate := 0
  rng := seed
  best := none
  lastPop := []

/-- Modelled from the spec: `CMASearch::init` (sections 4.1 and 7) —
requires `startPoint.size() == objective.dimension()` and
`initialSigma > 0`, failing fast with InvalidArgument otherwise (also for a
malformed dimension `n < 1`); a non-positive step size is never corrected. -/
def initCMA (A : Analytic) (obj : Objective) (startPoint : List ℚ)
    (initialSigma : ℚ) (seed : ℕ) : Except CMAError CMAState :=
  if obj.dim < 1 then .error .invalidArgument
  else if startPoint.length ≠ obj.dim then .error .invalidArgument
  else if initialSigma ≤ 0 then .error .invalidArgument
  else .ok (initState A obj startPoint initialSigma seed)

/-- Modelled from the spec: an Individual of section 3; it stores `z` and
`y` as section 4.2 requires, plus its sampling index for the stable
tie-break of section 4.3. -/
structure Indiv where
  x : List ℚ
  z : List ℚ
  y : List ℚ
  fit : ℚ
  idx : ℕ

/-- Modelled from the spec: the Sampler of section 4.2 — draw
`z ~ N(0, I_n)`, put `y = B * (D ⊙ z)` and `x = mean + sigma * y`. -/
def sampleOne (st : CMAState) (s : ℕ) : (List ℚ × List ℚ × List ℚ) × ℕ :=
  let p := drawVec st.n s
  let y := matVec st.eigB (List.zipWith (· * ·) st.eigD p.1)
  ((vadd st.mean (vsmul st.sigma y), p.1, y), p.2)

/-- The λ candidates of one generation, threading the generator state. -/
def sampleMany (st : CMAState) : ℕ → ℕ → List (List ℚ × List ℚ × List ℚ) × ℕ
  | 0, s => ([], s)
  | k + 1, s =>
    let p := sampleOne st s
    let q := sampleMany st k p.2
    (p.1 :: q.1, q.2)

/-- Evaluate the sampled candidates into a Population (section 4.1 control
flow), remembering each sampling index. -/
def mkPop (obj : Objective) (samples : List (List ℚ × List ℚ × List ℚ)) : List Indiv :=
  samples.enum.map (fun p => ⟨p.2.1, p.2.2.1, p.2.2.2, obj.eval p.2.1, p.1⟩)

/-- Stable insertion for the fitness-ascending sort of section 4.3, ties
broken by original sampling index. -/
def insertRanked (p : Indiv) : List Indiv → List Indiv
  | [] => [p]
  | q :: qs =>
    if p.fit < q.fit ∨ (p.fit = q.fit ∧ p.idx ≤ q.idx) then p :: q :: qs
    else q :: insertRanked p qs

/-- Fitness-ascending stable sort of the population (section 4.3). -/
def rankPop (pop : List Indiv) : List Indiv := pop.foldr insertRanked []

/-- Weighted sum of vectors. -/
def wsum (n : ℕ) (ws : List ℚ) (vs : List (List ℚ)) : List ℚ :=
  (List.zipWith vsmul ws vs).foldl vadd (zeroVec n)

/-- Weighted sum of matrices. -/
def wsumMat (n : ℕ) (ws : List ℚ) (Ms : List (List (List ℚ))) : List (List ℚ) :=
  (List.zipWith msmul ws Ms).foldl madd (zeroMat n)

/-- Modelled from the spec: the eigenvalue safeguard floor of section 4.4
step 6. -/
def eigenFloor : ℚ := 1 / 10 ^ 14

/-- Modelled from the spec: the BestSolution update of section 3 — keep the
best individual ever observed; fitness can only improve. -/
def updateBest (b : Option (List ℚ × ℚ)) : List Indiv → Option (List ℚ × ℚ)
  | [] => b
  | ind :: rest =>
    match b with
    | none => updateBest (some (ind.x, ind.fit)) rest
    | some pr =>
      if ind.fit < pr.2 then updateBest (some (ind.x, ind.fit)) rest
      else updateBest (some pr) rest

/-- Modelled from the spec: one full generation of `CMASearch::run`
(sections 4.1-4.4): sample λ candidates, evaluate, rank, update mean, paths,
step size and covariance, refresh the eigenbasis when the recomputation
interval is crossed (clamping eigenvalues to the safeguard floor and
symmetrizing first), and update the best solution. -/
def runCMA (A : Analytic) (obj : Objective) (st : CMAState) : CMAState :=
  let p := st.params
  let sampled := sampleMany st p.lam st.rng
  let pop := mkPop obj sampled.1
  let ranked := rankPop pop
  let sel := ranked.take p.mu
  let ys := sel.map (fun ind => ind.y)
  let zs := sel.map (fun ind => ind.z)
  let wy := wsum st.n p.weights ys
  let wz := wsum st.n p.weights zs
  let mean' := vadd st.mean (vsmul st.sigma wy)
  let psig := vadd (vsmul (1 - p.cs) st.pathSigma)
    (vsmul (A.sqrtA (p.cs * (2 - p.cs) * p.muEff)) (matVec st.eigB wz))
  let pnorm := A.sqrtA (vdot psig psig)
  let sigma' := st.sigma * A.expA (p.cs / p.dsigma * (pnorm / p.chiN - 1))
  let hsig : ℚ :=
    if pnorm / A.sqrtA (1 - (1 - p.cs) ^ (2 * (st.generationCount + 1))) <
        (7 / 5 + 2 / ((st.n : ℚ) + 1)) * p.chiN then 1 else 0
  let pc := vadd (vsmul (1 - p.cc) st.pathC)
    (vsmul (hsig * A.sqrtA (p.cc * (2 - p.cc) * p.muEff)) wy)
  let rankMu := wsumMat st.n p.weights (ys.map (fun y => outer y y))
  let covC' :=
    madd (madd (msmul (1 - p.c1 - p.cmu) st.covC)
        (msmul p.c1 (madd (outer pc pc) (msmul ((1 - hsig) * p.cc * (2 - p.cc)) st.covC))))
      (msmul p.cmu rankMu)
  let gen' := st.generationCount + 1
  let eig :=
    if ((gen' - st.lastEigenUpdate : ℕ) : ℚ) ≥ (st.n : ℚ) / (10 * (p.c1 + p.cmu)) then
      let sym := msmul (1 / 2) (madd covC' (transposeMat st.n covC'))
      let dec := A.eigA sym
      (dec.1, dec.2.map (fun e => A.sqrtA (max e eigenFloor)), gen')
    else (st.eigB, st.eigD, st.lastEigenUpdate)
  { st with
    mean := mean'
    sigma := sigma'
    covC := covC'
    eigB := eig.1
    eigD := eig.2.1
    pathC := pc
    pathSigma := psig
    generationCount := gen'
    lastEigenUpdate := eig.2.2
    rng := sampled.2
    best := updateBest st.best pop
    lastPop := pop.map (fun ind => ind.x) }

/-- Accessor `bestSolutionFitness()` of section 4.1 (valid only after at
least one `run`; defaults to 0 before). -/
def bestSolutionFitness (st : CMAState) : ℚ := (st.best.map Prod.snd).getD 0

/-- The candidate vectors sampled by the most recent `run()` call, in
sampling order. -/
def sampledCandidates (st : CMAState) : List (List ℚ) := st.lastPop

/-- A concrete Analytic instance for witnesses: the identity stands in for
each abstracted scalar operation, and the decomposition returns the matrix
itself with unit eigenvalues. -/
def demoAnalytic : Analytic :=
  ⟨fun q => q, fun q => q, fun q => q, fun M => (M, M.map (fun _ => 1))⟩

/-- A concrete one-dimensional objective for witnesses. -/
def demoObj : Objective := ⟨1, fun v => vdot v v⟩

/-- C3: determinism — two CMASearch instances initialized with the same
objective, start point and initial step size and seeded identically produce,
after every number `k` of `run()` calls, identical sequences of sampled
candidates and identical `bestSolutionFitness()` values.  The modelled core
is a pure state-transition function of the search state (which owns the
RandomSource state), so identical initialization forces identical
trajectories. -/
theorem cma_deterministic (A : Analytic) (obj : Objective) (startPoint : List ℚ)
    (initialSigma : ℚ) (seed₁ seed₂ : ℕ) (hseed : seed₁ = seed₂)
    (s₁ s₂ : CMAState)
    (h₁ : initCMA A obj startPoint initialSigma seed₁ = .ok s₁)
    (h₂ : initCMA A obj startPoint initialSigma seed₂ = .ok s₂) (k : ℕ) :
    sampledCandidates ((runCMA A obj)^[k] s₁) =
      sampledCandidates ((runCMA A obj)^[k] s₂) ∧
    bestSolutionFitness ((runCMA A obj)^[k] s₁) =
      bestSolutionFitness ((runCMA A obj)^[k] s₂) := by
  subst hseed
  rw [h₁] at h₂
  injection h₂ with h
  subst h
  exact ⟨rfl, rfl⟩

/-- C3 witness: determinism instantiated at dimension 1, seed 42, start
point (0), step size 1, after two generations. -/
theorem cma_deterministic_witness :
    sampledCandidates ((runCMA demoAnalytic demoObj)^[2]
        (initState demoAnalytic demoObj [0] 1 42)) =
      sampledCandidates ((runCMA demoAnalytic demoObj)^[2]
        (initState demoAnalytic demoObj [0] 1 42)) ∧
    bestSolutionFitness ((runCMA demoAnalytic demoObj)^[2]
        (initState demoAnalytic demoObj [0] 1 42)) =
      bestSolutionFitness ((runCMA demoAnalytic demoObj)^[2]
        (initState demoAnalytic demoObj [0] 1 42)) :=
  cma_deterministic demoAnalytic demoObj [0] 1 42 42 rfl
    (initState demoAnalytic demoObj [0] 1 42)
    (initState demoAnalytic demoObj [0] 1 42) rfl rfl 2

/-- Folding the best-solution update over a population never increases the
stored best fitness. -/
theorem updateBest_le (pop : List Indiv) (pr : List ℚ × ℚ) :
    ∃ qr, updateBest (some pr) pop = some qr ∧ qr.2 ≤ pr.2 := by
  induction pop generalizing pr with
  | nil => exact ⟨pr, rfl, le_refl pr.2⟩
  | cons ind rest ih =>
    by_cases hlt : ind.fit < pr.2
    · obtain ⟨qr, hq, hle⟩ := ih (ind.x, ind.fit)
      refine ⟨qr, ?_, le_trans hle (le_of_lt hlt)⟩
      simpa [updateBest, hlt] using hq
    · obtain ⟨qr, hq, hle⟩ := ih pr
      refine ⟨qr, ?_, hle⟩
      simpa [updateBest, hlt] using hq

/-- C4: the best fitness is non-increasing across successive `run()` calls —
whenever the state already holds a best solution (true after the first
`run`), one further `run()` can only improve it or leave it unchanged. -/
theorem bestSolutionFitness_monotone (A : Analytic) (obj : Objective)
    (st : CMAState) (pr : List ℚ × ℚ) (h : st.best = some pr) :
    bestSolutionFitness (runCMA A obj st) ≤ bestSolutionFitness st := by
  obtain ⟨qr, hq, hle⟩ :=
    updateBest_le (mkPop obj (sampleMany st st.params.lam st.rng).1) pr
  have hb : (runCMA A obj st).best =
      updateBest st.best (mkPop obj (sampleMany st st.params.lam st.rng).1) := rfl
  unfold bestSolutionFitness
  rw [hb, h, hq]
  simpa using hle

/-- A concrete post-run state for witnesses: the dimension-1 initial state
with a recorded best solution of fitness 1. -/
def demoState : CMAState :=
  { initState demoAnalytic demoObj [0] 1 42 with best := some ([0], 1) }

/-- C4 witness: monotonicity of the best fitness instantiated at the
concrete dimension-1 state holding best fitness 1. -/
theorem bestSolutionFitness_monotone_witness :
    bestSolutionFitness (runCMA demoAnalytic demoObj demoState) ≤
      bestSolutionFitness demoState :=
  bestSolutionFitness_monotone demoAnalytic demoObj demoState ([0], 1) rfl

/-- C6: `init` with a non-positive initial step size fails with
InvalidArgument for every objective, start vector and seed; no search state
is produced, so the step size is never silently corrected. -/
theorem init_nonpositive_sigma_fails (A : Analytic) (obj : Objective)
    (startPoint : List ℚ) (initialSigma : ℚ) (seed : ℕ) (h : initialSigma ≤ 0) :
    initCMA A obj startPoint initialSigma seed = .error .invalidArgument ∧
    ∀ st, initCMA A obj startPoint initialSigma seed ≠ .ok st := by
  have he : initCMA A obj startPoint initialSigma seed = .error .invalidArgument := by
    unfold initCMA
    split_ifs with h1 h2
    · rfl
    · rfl
    · rfl
  refine ⟨he, fun st hst => ?_⟩
  rw [he] at hst
  exact Except.noConfusion hst

/-- C6 witness: `init` at dimension 1, start point (0), step size 0 and
seed 7 fails with InvalidArgument. -/
theorem init_nonpositive_sigma_fails_witness :
    initCMA demoAnalytic demoObj [0] 0 7 = .error .invalidArgument ∧
    ∀ st, initCMA demoAnalytic demoObj [0] 0 7 ≠ .ok st :=
  init_nonpositive_sigma_fails demoAnalytic demoObj [0] 0 7 (le_refl 0)

/-! ### Covariance update over exact reals (spec section 4.4, step 5) -/

open Matrix

/-- Modelled from the spec: the covariance recurrence of section 4.4 step 5
over exact real matrices, for a state of dimension `n` and `m` recombination
weights: `C' = (1-c1-cmu)·C + c1·(pc pcᵀ + (1-hsig)·cc·(2-cc)·C) +
cmu·Σ_i w_i y_i y_iᵀ`. -/
noncomputable def updateCov {n m : ℕ} (c1 cmu cc hsig : ℝ)
    (C : Matrix (Fin n) (Fin n) ℝ) (pc : Fin n → ℝ)
    (w : Fin m → ℝ) (y : Fin m → Fin n → ℝ) : Matrix (Fin n) (Fin n) ℝ :=
  (1 - c1 - cmu) • C +
    c1 • (Matrix.vecMulVec pc pc + ((1 - hsig) * cc * (2 - cc)) • C) +
    cmu • ∑ i, w i • Matrix.vecMulVec (y i) (y i)

/-- A nonnegative multiple of a positive-semidefinite real matrix is
positive semidefinite. -/
theorem posSemidef_smul {n : ℕ} {M : Matrix (Fin n) (Fin n) ℝ} {a : ℝ}
    (hM : M.PosSemidef) (ha : 0 ≤ a) : (a • M).PosSemidef := by
  constructor
  · show (a • M)ᴴ = a • M
    rw [Matrix.conjTranspose_smul, star_trivial a, hM.1.eq]
  · intro x
    rw [Matrix.smul_mulVec_assoc, dotProduct_smul, smul_eq_mul]
    exact mul_nonneg ha (hM.2 x)

/-- A positive multiple of a positive-definite real matrix is positive
definite. -/
theorem posDef_smul {n : ℕ} {M : Matrix (Fin n) (Fin n) ℝ} {a : ℝ}
    (hM : M.PosDef) (ha : 0 < a) : (a • M).PosDef := by
  constructor
  · show (a • M)ᴴ = a • M
    rw [Matrix.conjTranspose_smul, star_trivial a, hM.1.eq]
  · intro x hx
    rw [Matrix.smul_mulVec_assoc, dotProduct_smul, smul_eq_mul]
    exact mul_pos ha (hM.2 x hx)

/-- A real rank-one matrix `v vᵀ` is positive semidefinite. -/
theorem posSemidef_vecMulVec {n : ℕ} (v : Fin n → ℝ) :
    (Matrix.vecMulVec v v).PosSemidef := by
  have hmv : ∀ x : Fin n → ℝ, Matrix.vecMulVec v v *ᵥ x = (v ⬝ᵥ x) • v := by
    intro x
    ext i
    simp only [Matrix.mulVec, dotProduct, Matrix.vecMulVec_apply, Pi.smul_apply,
      smul_eq_mul]
    rw [Finset.sum_mul]
    exact Finset.sum_congr rfl (fun j _ => by ring)
  constructor
  · show (Matrix.vecMulVec v v)ᴴ = Matrix.vecMulVec v v
    ext i j
    simp [Matrix.vecMulVec_apply, mul_comm]
  · intro x
    rw [hmv x, dotProduct_smul, smul_eq_mul]
    have hs : star x ⬝ᵥ v = v ⬝ᵥ x := by
      simp [dotProduct, mul_comm]
    rw [hs]
    exact mul_self_nonneg _

/-- The weighted rank-mu sum with nonnegative weights is positive
semidefinite. -/
theorem posSemidef_rankMuSum {n m : ℕ} (w : Fin m → ℝ) (y : Fin m → Fin n → ℝ)
    (hw : ∀ i, 0 ≤ w i) :
    (∑ i, w i • Matrix.vecMulVec (y i) (y i)).PosSemidef := by
  refine Finset.sum_induction _ _ (fun a b ha hb => ha.add hb)
    Matrix.PosSemidef.zero (fun i _ => ?_)
  exact posSemidef_smul (posSemidef_vecMulVec (y i)) (hw i)

/-- C5: spec-modelled — one covariance update of section 4.4 step 5
preserves the invariant: for a symmetric positive-definite `C`, learning
rates `0 ≤ c1`, `0 ≤ cmu` with `c1 + cmu < 1`, a covariance-path constant
`0 ≤ cc ≤ 2`, the stall indicator `hsig ∈ {0, 1}` and nonnegative
recombination weights, the updated covariance matrix is again symmetric
(Hermitian over the reals) and positive definite — equivalently, all of its
eigenvalues are strictly positive. -/
theorem updateCov_posDef {n m : ℕ} {c1 cmu cc hsig : ℝ}
    {C : Matrix (Fin n) (Fin n) ℝ} {pc : Fin n → ℝ}
    {w : Fin m → ℝ} {y : Fin m → Fin n → ℝ}
    (hC : C.PosDef) (hc1 : 0 ≤ c1) (hcmu : 0 ≤ cmu) (hsum : c1 + cmu < 1)
    (hcc0 : 0 ≤ cc) (hcc2 : cc ≤ 2) (hhs : hsig = 0 ∨ hsig = 1)
    (hw : ∀ i, 0 ≤ w i) :
    (updateCov c1 cmu cc hsig C pc w y).IsHermitian ∧
    (updateCov c1 cmu cc hsig C pc w y).PosDef := by
  have hbase : ((1 - c1 - cmu) • C).PosDef := posDef_smul hC (by linarith)
  have hcoef : 0 ≤ (1 - hsig) * cc * (2 - cc) := by
    rcases hhs with h | h <;> subst h
    · nlinarith [mul_nonneg hcc0 (sub_nonneg.mpr hcc2)]
    · norm_num
  have hmid : (c1 • (Matrix.vecMulVec pc pc +
      ((1 - hsig) * cc * (2 - cc)) • C)).PosSemidef :=
    posSemidef_smul
      ((posSemidef_vecMulVec pc).add (posSemidef_smul hC.posSemidef hcoef)) hc1
  have hlast : (cmu • ∑ i, w i • Matrix.vecMulVec (y i) (y i)).PosSemidef :=
    posSemidef_smul (posSemidef_rankMuSum w y hw) hcmu
  have hpd : (updateCov c1 cmu cc hsig C pc w y).PosDef := by
    unfold updateCov
    exact (hbase.add_posSemidef hmid).add_posSemidef hlast
  exact ⟨hpd.isHermitian, hpd⟩

/-- C5 witness: the preservation theorem instantiated at dimension 1 with
one weight: C the identity, c1 = cmu = 1/4, cc = 1, hsig = 1, zero path and
candidate, weight 1/2. -/
theorem updateCov_posDef_witness :
    (@updateCov 1 1 (1/4) (1/4) 1 1 1 (fun _ => 0) (fun _ => 1/2)
        (fun _ _ => 0)).IsHermitian ∧
    (@updateCov 1 1 (1/4) (1/4) 1 1 1 (fun _ => 0) (fun _ => 1/2)
        (fun _ _ => 0)).PosDef :=
  updateCov_posDef Matrix.PosDef.one (by norm_num) (by norm_num) (by norm_num)
    (by norm_num) (by norm_num) (Or.inr rfl) (fun i => by norm_num)

end Shark
